import Mathlib

/-!
Verification of the `dml-pdfclassify` classifier core: a shallow embedding of
`src/pdfclassify/label_config.py` and `src/pdfclassify/pdf_semantic_classifier.py`,
with theorems checking the natural-language specification against the code.

Modelling conventions:
* Python floats are modelled as `ℚ` (the claims under study concern control
  flow, clamping and exact comparisons, not rounding).
* Python `int` vs `float` objects are distinguished by `PyNum`, because
  `LabelConfig.is_complete` performs an `isinstance(_, float)` check.
* Python text that is manipulated (lowercased, stripped, split) is modelled
  as `List Char`; identifiers that are only compared (dictionary keys, paths,
  labels, hash digests) stay `String`.
* Raised exceptions are modelled with `Except`.
* External collaborators (sentence-transformer embedding, pdfminer text
  extraction, content hashing) are parameters of the functions that call them.
-/

namespace PdfClassify

/-- Python `str.lower()` on a character sequence. -/
def pyLower (s : List Char) : List Char := s.map Char.toLower

/-- Python `str.strip()`: drop whitespace from both ends. -/
def pyStrip (s : List Char) : List Char :=
  ((s.dropWhile Char.isWhitespace).reverse.dropWhile Char.isWhitespace).reverse

/-- Python substring test `needle in hay`: contiguous-subsequence membership. -/
def strContains (needle hay : List Char) : Bool :=
  decide (List.IsInfix needle hay)

/-- A Python number: `isinstance(x, (int, float))` matches both constructors,
`isinstance(x, float)` only the second. -/
inductive PyNum
  | int (n : ℤ)
  | float (q : ℚ)
deriving DecidableEq

/-- Numeric value of a `PyNum`, used for Python arithmetic comparisons
(`value < 0.0`, `value > 0.07`), which compare ints and floats by value. -/
def PyNum.toRat : PyNum → ℚ
  | .int n => (n : ℚ)
  | .float q => q

/-- A raw JSON-ish value as found in the dictionaries handed to
`LabelConfig.from_dict` (`label_config.py`): strings, numbers, lists, and
`None` (which also stands for an absent key, as in `raw.get(field, None)`). -/
inductive RawValue
  | str (s : List Char)
  | num (v : PyNum)
  | pylist (l : List RawValue)
  | null

/-- `is_list_of_str` (label_config.py line 15): a list whose members are all strings. -/
def is_list_of_str : RawValue → Bool
  | .pylist l => l.all fun v => match v with | .str _ => true | _ => false
  | _ => false

/-- `is_optional_str` (label_config.py line 20): a string or `None`. -/
def is_optional_str : RawValue → Bool
  | .null => true
  | .str _ => true
  | _ => false

/-- `_ALLOWED_MINIMUM_PARTS` (label_config.py line 10). -/
def _ALLOWED_MINIMUM_PARTS : List (List Char) :=
  ["day".toList, "month".toList, "year".toList]

/-- `_DEFAULT_MINIMUM_PARTS` (label_config.py line 11). -/
def _DEFAULT_MINIMUM_PARTS : List (List Char) :=
  ["day".toList, "month".toList, "year".toList]

/-- `is_valid_parts` (label_config.py line 25): a list of strings drawn from
the allowed date parts. -/
def is_valid_parts : RawValue → Bool
  | .pylist l => l.all fun v =>
      match v with
      | .str s => _ALLOWED_MINIMUM_PARTS.contains s
      | _ => false
  | _ => false

/-- Extract the strings of a `RawValue` list (total helper; `from_dict` only
uses it on values that already passed `is_list_of_str`/`is_valid_parts`). -/
def asStrList : RawValue → List (List Char)
  | .pylist l => l.filterMap fun v => match v with | .str s => some s | _ => Option.none
  | _ => []

/-- `raw.get(field_name, None)` on the raw dictionary: first binding wins,
a missing key yields `None`. -/
def lookupRaw (raw : List (String × RawValue)) (k : String) : RawValue :=
  ((raw.find? fun p => p.1 == k).map (·.2)).getD RawValue.null

/-- The comma-split-and-trim conversion `[v.strip() for v in value.split(",") if v.strip()]`
applied by `LabelConfig.validate_field` (label_config.py line 88) to string inputs
of list-valued fields. -/
def commaSplit (s : List Char) : List (List Char) :=
  ((s.splitOn ',').map pyStrip).filter fun v => v ≠ []

/-- `LabelConfig` (label_config.py line 61). `boost` keeps its Python runtime
type (`PyNum`): `from_dict` does not coerce ints to floats, and `is_complete`
checks `isinstance(self.boost, float)`. The remaining fields are typed as the
values `from_dict` actually produces. -/
structure LabelConfig where
  boost_phrases : List (List Char)
  boost : PyNum
  final_name_pattern : Option (List Char)
  devonthink_group : Option (List Char)
  preferred_context : List (List Char)
  minimum_parts : List (List Char)
deriving DecidableEq

/-- `LabelConfig.validate_field` (label_config.py lines 75-97). String inputs to
the list-valued fields are comma-split before validation; a value failing its
field's validator raises `ValueError` (modelled as `.error` carrying the nested
message the Python re-raise produces); an unknown field name raises. -/
def validate_field (field_name : String) (value : RawValue) : Except String RawValue :=
  let invalid : Except String RawValue :=
    .error ("Validation failed for " ++ field_name ++ ": Invalid value for field: " ++ field_name)
  if field_name = "boost_phrases" ∨ field_name = "preferred_context" then
    let value' := match value with
      | .str s => RawValue.pylist ((commaSplit s).map RawValue.str)
      | _ => value
    if is_list_of_str value' then .ok value' else invalid
  else if field_name = "minimum_parts" then
    let value' := match value with
      | .str s => RawValue.pylist ((commaSplit s).map RawValue.str)
      | _ => value
    if is_valid_parts value' then .ok value' else invalid
  else if field_name = "boost" then
    match value with
    | .num _ => .ok value
    | _ => invalid
  else if field_name = "final_name_pattern" ∨ field_name = "devonthink_group" then
    if is_optional_str value then .ok value else invalid
  else .error ("Unknown field: " ++ field_name)

/-- `LabelConfig.from_dict` (label_config.py lines 99-129), field by field.
Each field is validated with its SCHEMA validator directly (NOT through
`validate_field`, so no comma-splitting happens here); a failing value is
replaced by the field's default; `boost` is then clamped (`< 0.0` to `-1.0`,
`> 0.07` down to `0.07`); `minimum_parts` is filtered to the allowed parts
with a fallback to the default when the filter result is empty. -/
def LabelConfig.from_dict (raw : List (String × RawValue)) : LabelConfig :=
  let bp :=
    let v := lookupRaw raw "boost_phrases"
    if is_list_of_str v then asStrList v else []
  let b :=
    let v := lookupRaw raw "boost"
    let v1 : PyNum := match v with | .num n => n | _ => PyNum.float (-1)
    if v1.toRat < 0 then PyNum.float (-1)
    else if 7 / 100 < v1.toRat then PyNum.float (7 / 100)
    else v1
  let fnp :=
    match lookupRaw raw "final_name_pattern" with
    | .str s => some s
    | _ => Option.none
  let dg :=
    match lookupRaw raw "devonthink_group" with
    | .str s => some s
    | _ => Option.none
  let pc :=
    let v := lookupRaw raw "preferred_context"
    if is_list_of_str v then asStrList v else []
  let mp :=
    let v := lookupRaw raw "minimum_parts"
    let v0 := if is_valid_parts v then asStrList v else _DEFAULT_MINIMUM_PARTS
    let v1 := v0.filter fun p => _ALLOWED_MINIMUM_PARTS.contains p
    if v1.isEmpty then _DEFAULT_MINIMUM_PARTS else v1
  ⟨bp, b, fnp, dg, pc, mp⟩

/-- `LabelConfig.is_complete` (label_config.py lines 135-141):
`isinstance(self.boost_phrases, list) and isinstance(self.boost, float) and self.boost >= 0.0`.
In this model `boost_phrases` is typed `List (List Char)`, so its `isinstance`
check is identically true; the `float` check on `boost` is kept. -/
def LabelConfig.is_complete (c : LabelConfig) : Bool :=
  match c.boost with
  | .float q => decide (0 ≤ q)
  | .int _ => false

/-- `LabelConfig.matches_phrase` (label_config.py lines 143-145):
`any(p.lower() in text.lower() for p in self.boost_phrases)`. -/
def LabelConfig.matches_phrase (c : LabelConfig) (text : List Char) : Bool :=
  c.boost_phrases.any fun p => strContains (pyLower p) (pyLower text)

/-- `LabelConfig.get_boost_if_matched` (label_config.py lines 147-149). -/
def LabelConfig.get_boost_if_matched (c : LabelConfig) (text : List Char) : PyNum :=
  if c.matches_phrase text then c.boost else PyNum.float 0

/-! ## The classifier (`pdf_semantic_classifier.py`)

State model. On-disk keyed stores (the embeddings directory, JSON dicts) are
association lists; the embeddings directory is keyed by the document path
itself, standing for the injective md5-of-path addressing of
`_embedding_path`. A training document is modelled with its path, its current
content fingerprint (the digest `_compute_file_hash` derives from file bytes
plus mtime — equal exactly when content and mtime are unchanged), and the
result of the external `extract_text` collaborator on it. -/

/-- Decidable equality of `Except` results, for evaluating the model on
concrete inputs. -/
instance {ε α : Type} [DecidableEq ε] [DecidableEq α] : DecidableEq (Except ε α) := fun x y =>
  match x, y with
  | .ok a, .ok b =>
    if h : a = b then .isTrue (by rw [h]) else .isFalse (by intro he; cases he; exact h rfl)
  | .error a, .error b =>
    if h : a = b then .isTrue (by rw [h]) else .isFalse (by intro he; cases he; exact h rfl)
  | .ok _, .error _ => .isFalse (by intro he; cases he)
  | .error _, .ok _ => .isFalse (by intro he; cases he)

/-- Lookup in an association list (first binding wins). -/
def getA {α : Type} (l : List (String × α)) (k : String) : Option α :=
  (l.find? fun p => p.1 == k).map (·.2)

/-- Overwriting insert into an association list (models `dict[k] = v` /
overwriting an on-disk file). -/
def setA {α : Type} (l : List (String × α)) (k : String) (v : α) : List (String × α) :=
  (l.filter fun p => p.1 != k) ++ [(k, v)]

/-- Delete a key from an association list (no-op when absent, like unlinking
an existing file). -/
def delA {α : Type} (l : List (String × α)) (k : String) : List (String × α) :=
  l.filter fun p => p.1 != k

/-- Result of the external `extract_text` collaborator on one document:
either extracted text or a raised exception carrying a message. The
collaborator is deterministic per document within the modelled window. -/
inductive ExtractRes
  | ok (text : List Char)
  | raises (msg : String)
deriving DecidableEq

/-- One `*.pdf` training document: its path, its current content fingerprint,
and what `extract_text` yields on it. -/
structure Doc where
  path : String
  fp : String
  extract : ExtractRes
deriving DecidableEq

/-- One file of the embeddings cache directory: a good `(vector, label)` pair
or a corrupt entry whose `joblib.load` raises (caught and skipped). -/
inductive EmbEntry
  | good (vec : List ℚ) (label : String)
  | corrupt
deriving DecidableEq

/-- The persisted fingerprint snapshot `file_hashes.json`: missing,
unparseable (raises `JSONDecodeError`), parseable but not a JSON object, or a
parsed object mapping path to digest. -/
inductive HashFile
  | missing
  | invalidJson
  | jsonNonDict
  | dict (entries : List (String × String))
deriving DecidableEq

/-- The persisted aggregate model `model.joblib`. -/
inductive ModelFile
  | absent
  | corrupt
  | stored (vecs : List (List ℚ)) (labels : List String)
deriving DecidableEq

/-- The classifier's state: the training corpus (label directories with their
pdf files) and the cache directory (embeddings store, fingerprint snapshot,
aggregate model), plus the in-memory `doc_vectors`/`labels` attributes. -/
structure ClassifierState where
  dataDir : List (String × List Doc)
  embeddings : List (String × EmbEntry)
  hashFile : HashFile
  modelFile : ModelFile
  doc_vectors : Option (List (List ℚ))
  labels : List String
deriving DecidableEq

/-- Observable events of a training run (logger lines and collaborator
calls): `extract_text` invocations, "Updated embedding"/failure logs, evicted
deleted files, pruned empty label directories. -/
inductive Event
  | extractCall (path : String)
  | updatedEmbedding (path : String)
  | failedEmbed (path : String)
  | removed (path : String)
  | pruned (label : String)
deriving DecidableEq

/-- Python exceptions surfaced by the modelled code. -/
inductive PyError
  | valueError (msg : String)
  | runtimeError (msg : String)
  | attributeError
deriving DecidableEq

/-- `Classification` (pdf_semantic_classifier.py line 35). -/
structure Classification where
  confidence : ℚ
  label : String
  success : Bool := true
deriving DecidableEq

/-- What `json.load(self.hash_path)` handed to `_load_data`: a parsed dict, or
a parsed non-dict value (on which attribute access `.get`/`.keys` raises). -/
inductive PyVal
  | obj (entries : List (String × String))
  | nonDict

/-- Accumulator of `_load_data`'s main loop: the embeddings store as mutated
so far, the `embeddings`/`labels` lists built in row order, the `new_hashes`
dict, and the logged events. -/
structure LoadAcc where
  store : List (String × EmbEntry)
  assembled : List (List ℚ × String)
  newHashes : List (String × String)
  events : List Event

/-- The corpus walk order of `_load_data`: every `(label, pdf)` pair, label
directories in order, files within each directory in order. -/
def corpusDocs (dirs : List (String × List Doc)) : List (String × Doc) :=
  dirs.flatMap fun ld => ld.2.map fun d => (ld.1, d)

/-- One iteration of `_load_data`'s per-pdf loop (pdf_semantic_classifier.py
lines 129-158): record the fingerprint in `new_hashes`; if the fingerprint
differs from the previous snapshot or no cached embedding exists, call
`extract_text` and, on non-blank text, embed and store a `(vector, label)`
record (an extraction exception is caught and logged); finally, if a cached
record now exists, load it and append it to the assembled rows (a corrupt
record is logged and skipped). The model's `embed` stands for
`self.embedder.encode` and always succeeds, as does the store write. -/
def processDoc (embed : List Char → List ℚ) (prev : List (String × String))
    (acc : LoadAcc) (ld : String × Doc) : LoadAcc :=
  let label := ld.1
  let d := ld.2
  let step :=
    if (getA prev d.path != some d.fp) || (getA acc.store d.path).isNone then
      match d.extract with
      | .raises _ => (acc.store, [Event.extractCall d.path, Event.failedEmbed d.path])
      | .ok text =>
        if pyStrip text ≠ [] then
          (setA acc.store d.path (EmbEntry.good (embed text) label),
           [Event.extractCall d.path, Event.updatedEmbedding d.path])
        else (acc.store, [Event.extractCall d.path])
    else (acc.store, ([] : List Event))
  let assembled1 :=
    match getA step.1 d.path with
    | some (.good v l) => acc.assembled ++ [(v, l)]
    | some .corrupt => acc.assembled
    | Option.none => acc.assembled
  { store := step.1, assembled := assembled1,
    newHashes := setA acc.newHashes d.path d.fp,
    events := acc.events ++ step.2 }

/-- Result of `_load_data`: the `new_hashes` return value, the mutated
embeddings store, the assigned `self.doc_vectors` / `self.labels`, and the
events. -/
structure LoadOut where
  newHashes : List (String × String)
  store : List (String × EmbEntry)
  doc_vectors : Option (List (List ℚ))
  labels : List String
  events : List Event

/-- `_load_data` (pdf_semantic_classifier.py lines 117-169). When the loaded
snapshot is not a dict, the first attribute access on it (`.get` in the loop,
or `.keys()` after it) raises `AttributeError`, before any cache mutation.
Otherwise: walk the corpus (see `processDoc`), then evict the cached
embedding of every previously-known path no longer present, then stack the
assembled rows (`None` when there are none). -/
def _load_data (embed : List Char → List ℚ) (dirs : List (String × List Doc))
    (store0 : List (String × EmbEntry)) (previous : PyVal) : Except PyError LoadOut :=
  match previous with
  | .nonDict => .error PyError.attributeError
  | .obj prev =>
    let acc := (corpusDocs dirs).foldl (processDoc embed prev) ⟨store0, [], [], []⟩
    let current := (corpusDocs dirs).map fun pd => pd.2.path
    let deleted := (prev.map (·.1)).filter fun p => !(current.contains p)
    .ok { newHashes := acc.newHashes,
          store := deleted.foldl delA acc.store,
          doc_vectors := if acc.assembled.isEmpty then Option.none
                         else some (acc.assembled.map (·.1)),
          labels := acc.assembled.map (·.2),
          events := acc.events ++ deleted.map Event.removed }

/-- Result of a `train` call: the classifier state afterwards and the logged
events. -/
structure TrainOut where
  state : ClassifierState
  events : List Event
deriving DecidableEq

/-- `train` (pdf_semantic_classifier.py lines 171-204): prune label
directories holding no pdf, read the previous snapshot (missing or
unparseable JSON is caught and replaced by the empty dict; a parsed non-dict
value is passed through to `_load_data`), run `_load_data`, and if at least
one row was assembled persist the aggregate model and the updated snapshot;
with zero rows, log and return without touching the persisted files.
`previousOf` is the `try: json.load / except: {}` preamble (lines 183-194):
missing or unparseable files give the empty dict, anything parsed is passed
through as-is. -/
def previousOf (hf : HashFile) : PyVal :=
  match hf with
  | .missing => .obj []
  | .invalidJson => .obj []
  | .jsonNonDict => .nonDict
  | .dict d => .obj d

/-- `train`, continued: prune, load the previous snapshot via `previousOf`,
run `_load_data`, and persist model + snapshot only when at least one row was
assembled. -/
def train (embed : List Char → List ℚ) (st : ClassifierState) : Except PyError TrainOut :=
  let kept := st.dataDir.filter fun ld => !ld.2.isEmpty
  let prunedEvents := (st.dataDir.filter fun ld => ld.2.isEmpty).map fun ld => Event.pruned ld.1
  match _load_data embed kept st.embeddings (previousOf st.hashFile) with
  | .error e => .error e
  | .ok out =>
    let st1 : ClassifierState :=
      { st with dataDir := kept, embeddings := out.store,
                doc_vectors := out.doc_vectors, labels := out.labels }
    if out.doc_vectors.isNone || out.labels.isEmpty then
      .ok ⟨st1, prunedEvents ++ out.events⟩
    else
      .ok ⟨{ st1 with modelFile := ModelFile.stored (out.doc_vectors.getD []) out.labels,
                      hashFile := HashFile.dict out.newHashes },
           prunedEvents ++ out.events⟩

/-- Dot product of two rows, truncated to the common length. -/
def dotQ : List ℚ → List ℚ → ℚ
  | x :: xs, y :: ys => x * y + dotQ xs ys
  | _, _ => 0

/-- L2 normalization `v / np.linalg.norm(v)`; `sqrtFn` stands for the
floating-point square root inside `np.linalg.norm`. -/
def normalize (sqrtFn : ℚ → ℚ) (v : List ℚ) : List ℚ :=
  let n := sqrtFn (dotQ v v)
  v.map fun x => x / n

/-- The similarity row of `predict` (pdf_semantic_classifier.py lines
248-251): normalize the query vector and every aggregate row, then take the
dot product of the query with each row. -/
def rawSims (sqrtFn : ℚ → ℚ) (qv : List ℚ) (dv : List (List ℚ)) : List ℚ :=
  let qn := normalize sqrtFn qv
  (dv.map (normalize sqrtFn)).map fun row => dotQ qn row

/-- `np.argmax` helper: best index so far, best value so far, index of the
head of the remaining list. -/
def argmaxFrom (bi : ℕ) (bv : ℚ) (i : ℕ) : List ℚ → ℕ
  | [] => bi
  | x :: xs => if bv < x then argmaxFrom i x (i + 1) xs else argmaxFrom bi bv (i + 1) xs

/-- `np.argmax`: index of the first occurrence of the maximum. -/
def argmaxIdx : List ℚ → ℕ
  | [] => 0
  | x :: xs => argmaxFrom 0 x 1 xs

/-- `_load_cached_model` + the model-availability preamble of `predict`
(pdf_semantic_classifier.py lines 225-233): if the model or hash file is
missing, run `train()`; otherwise if the in-memory model is unset, load the
persisted one, falling back to `train()` when loading raises. -/
def ensureModel (embed : List Char → List ℚ) (st : ClassifierState) :
    Except PyError ClassifierState :=
  if st.modelFile = ModelFile.absent ∨ st.hashFile = HashFile.missing then
    (train embed st).map (·.state)
  else if st.doc_vectors.isNone ∨ st.labels.isEmpty then
    match st.modelFile with
    | .stored vecs ls => .ok { st with doc_vectors := some vecs, labels := ls }
    | _ => (train embed st).map (·.state)
  else .ok st

/-- `predict` (pdf_semantic_classifier.py lines 210-266). The text of the
query document is extracted first: a raised extraction error becomes
`ValueError("Failed to extract PDF: ...")`, blank text becomes
`ValueError("PDF text is empty.")`, both before any model or corpus access.
Then the model is ensured (see `ensureModel`); a still-unset model raises
`RuntimeError`. The second `extract_text` call returns the same deterministic
result, so its blank-check cannot fire anew. Finally cosine similarities are
computed (`rawSims`), the arg-max row picked, and the threshold compared
strictly (`best_score < threshold` fails the prediction). No boost term and
no cap appear anywhere in this computation. -/
def predict (embed : List Char → List ℚ) (sqrtFn : ℚ → ℚ) (st : ClassifierState)
    (q : ExtractRes) (confidence_threshold : ℚ) :
    Except PyError (ClassifierState × Classification) :=
  match q with
  | .raises msg => .error (.valueError ("Failed to extract PDF: " ++ msg))
  | .ok text =>
    if pyStrip text = [] then .error (.valueError "PDF text is empty.")
    else
      match ensureModel embed st with
      | .error e => .error e
      | .ok st1 =>
        match st1.doc_vectors with
        | Option.none => .error (.runtimeError "Model is not trained. Run train() first.")
        | some dv =>
          if pyStrip text = [] then .error (.valueError "PDF text is empty.")
          else if dv.isEmpty then
            .error (.valueError "attempt to get argmax of an empty sequence")
          else
            let sims := rawSims sqrtFn (embed text) dv
            let best_index := argmaxIdx sims
            let best_score := sims.getD best_index 0
            let predicted_label := st1.labels.getD best_index ""
            let success := if best_score < confidence_threshold then false else true
            .ok (st1, ⟨best_score, predicted_label, success⟩)

/-- The caller's test distinguishing the empty-document condition
(`pdf_process.py` line 102: `"empty" in str(err).lower()` routes the file to
the OCR queue; anything else is re-raised). -/
def isEmptyDocError : PyError → Bool
  | .valueError msg => strContains "empty".toList (pyLower msg.toList)
  | _ => false

/-- Modelled from the spec (§4.4 steps 6-7), for the refinement comparison of
C1/C2: the boosted score row — for each aggregate row, the raw similarity
plus the row's label's `get_boost_if_matched` on the query text (0 when the
label has no configuration entry). -/
def specBoostedSims (cfg : List (String × LabelConfig)) (text : List Char)
    (sims : List ℚ) (labels : List String) : List ℚ :=
  (sims.zip labels).map fun p =>
    p.1 + (match getA cfg p.2 with
           | some c => (c.get_boost_if_matched text).toRat
           | Option.none => 0)

/-- An exact rational square root for inputs whose numerator and denominator
are perfect squares (all concrete norms appearing in the witnesses); plays
the floating-point sqrt inside `np.linalg.norm` in concrete evaluations. -/
def ratSqrt (q : ℚ) : ℚ := (Nat.sqrt q.num.toNat : ℚ) / (Nat.sqrt q.den : ℚ)

/-- The `boost` field `from_dict` produces, extracted from the definition. -/
theorem from_dict_boost (raw : List (String × RawValue)) :
    (LabelConfig.from_dict raw).boost =
      (let v1 : PyNum := match lookupRaw raw "boost" with | .num n => n | _ => PyNum.float (-1)
       if v1.toRat < 0 then PyNum.float (-1)
       else if 7 / 100 < v1.toRat then PyNum.float (7 / 100)
       else v1) := rfl

/-- The `boost_phrases` field `from_dict` produces, extracted from the
definition. -/
theorem from_dict_boost_phrases (raw : List (String × RawValue)) :
    (LabelConfig.from_dict raw).boost_phrases =
      (if is_list_of_str (lookupRaw raw "boost_phrases")
       then asStrList (lookupRaw raw "boost_phrases") else []) := rfl

/-- The `preferred_context` field `from_dict` produces, extracted from the
definition. -/
theorem from_dict_preferred_context (raw : List (String × RawValue)) :
    (LabelConfig.from_dict raw).preferred_context =
      (if is_list_of_str (lookupRaw raw "preferred_context")
       then asStrList (lookupRaw raw "preferred_context") else []) := rfl

/-- Squares of dot products are bounded below by 0 on the diagonal. -/
theorem dotQ_self_nonneg (v : List ℚ) : 0 ≤ dotQ v v := by
  induction v with
  | nil => simp [dotQ]
  | cons x xs ih => simp only [dotQ]; nlinarith [sq_nonneg x]

/-- Cauchy-Schwarz for the truncating dot product. -/
theorem dotQ_sq_le (u v : List ℚ) : dotQ u v * dotQ u v ≤ dotQ u u * dotQ v v := by
  induction u generalizing v with
  | nil =>
    simp only [dotQ]
    cases v <;> simp [mul_nonneg (dotQ_self_nonneg []) (dotQ_self_nonneg _),
      dotQ_self_nonneg, dotQ]
  | cons x xs ih =>
    cases v with
    | nil =>
      simp only [dotQ]
      simp [mul_nonneg (dotQ_self_nonneg (x :: xs)) (dotQ_self_nonneg ([] : List ℚ)), dotQ]
    | cons y ys =>
      simp only [dotQ]
      have h1 := ih ys
      have h2 := dotQ_self_nonneg xs
      have h3 := dotQ_self_nonneg ys
      have hslack : 0 ≤ dotQ xs xs * dotQ ys ys - dotQ xs ys * dotQ xs ys := by linarith
      rcases h3.lt_or_eq with hb | hb
      · nlinarith [sq_nonneg (x * dotQ ys ys - y * dotQ xs ys),
                   mul_nonneg (sq_nonneg y) hslack, mul_nonneg hb.le hslack, hb]
      · have hzero : dotQ xs ys * dotQ xs ys ≤ 0 := by
          calc dotQ xs ys * dotQ xs ys ≤ dotQ xs xs * dotQ ys ys := h1
          _ = 0 := by rw [← hb, mul_zero]
        have hd : dotQ xs ys = 0 :=
          mul_self_eq_zero.mp (le_antisymm hzero (mul_self_nonneg _))
        rw [hd, ← hb]
        nlinarith [mul_nonneg h2 (sq_nonneg y)]

/-- Pointwise division factors out of the dot product (valid also for zero
denominators, since division by zero is zero in `ℚ`). -/
theorem dotQ_map_div (u : List ℚ) (a b : ℚ) :
    ∀ v : List ℚ, dotQ (u.map fun x => x / a) (v.map fun x => x / b) = dotQ u v / (a * b) := by
  induction u with
  | nil => intro v; cases v <;> simp [dotQ]
  | cons x xs ih =>
    intro v
    cases v with
    | nil => simp [dotQ]
    | cons y ys =>
      simp only [List.map_cons, dotQ, ih]
      rw [div_mul_div_comm, div_add_div_same]

/-- The dot product of two vectors each divided by a true square root of its
own self-dot-product is at most 1. -/
theorem normalized_dot_le_one (u v : List ℚ) (su sv : ℚ)
    (hsu : 0 ≤ su) (hsu2 : su * su = dotQ u u)
    (hsv : 0 ≤ sv) (hsv2 : sv * sv = dotQ v v) :
    dotQ (u.map fun x => x / su) (v.map fun x => x / sv) ≤ 1 := by
  rw [dotQ_map_div]
  rcases eq_or_ne (su * sv) 0 with h | h
  · rw [h, div_zero]; norm_num
  · have hpos : 0 < su * sv := lt_of_le_of_ne (mul_nonneg hsu hsv) (Ne.symm h)
    rw [div_le_one hpos]
    have hcs := dotQ_sq_le u v
    rw [← hsu2, ← hsv2] at hcs
    nlinarith [hpos, hcs]

/-- `getD` with default 0 is bounded by 1 when every element is. -/
theorem getD_le_one_of_forall (l : List ℚ) (h : ∀ x ∈ l, x ≤ 1) (i : ℕ) :
    l.getD i 0 ≤ 1 := by
  induction l generalizing i with
  | nil => simp [List.getD]
  | cons x xs ih =>
    cases i with
    | zero => simpa using h x (by simp)
    | succ n =>
      simp only [List.getD_cons_succ]
      exact ih (fun y hy => h y (by simp [hy])) n

/-- Every row of `rawSims` is at most 1 when the square-root function is
exact on the norms involved. -/
theorem rawSims_le_one (sqrtFn : ℚ → ℚ) (qv : List ℚ) (dv : List (List ℚ))
    (hq : 0 ≤ sqrtFn (dotQ qv qv) ∧
          sqrtFn (dotQ qv qv) * sqrtFn (dotQ qv qv) = dotQ qv qv)
    (hrows : ∀ v ∈ dv, 0 ≤ sqrtFn (dotQ v v) ∧
          sqrtFn (dotQ v v) * sqrtFn (dotQ v v) = dotQ v v) :
    ∀ s ∈ rawSims sqrtFn qv dv, s ≤ 1 := by
  intro s hs
  simp only [rawSims, normalize, List.mem_map] at hs
  obtain ⟨row', ⟨row, hrow, rfl⟩, rfl⟩ := hs
  exact normalized_dot_le_one qv row _ _ hq.1 hq.2
    (hrows row hrow).1 (hrows row hrow).2

/-- `predict` on a successfully extracted non-blank document with an already
available in-memory model: the result is the raw-cosine arg-max row's label
and score, compared strictly against the threshold. -/
theorem predict_ok_reduce (embed : List Char → List ℚ) (sqrtFn : ℚ → ℚ)
    (st st1 : ClassifierState) (text : List Char) (threshold : ℚ) (dv : List (List ℚ))
    (h0 : pyStrip text ≠ [])
    (h1 : ensureModel embed st = .ok st1)
    (h2 : st1.doc_vectors = some dv)
    (h3 : dv ≠ []) :
    predict embed sqrtFn st (ExtractRes.ok text) threshold
      = .ok (st1,
          ⟨(rawSims sqrtFn (embed text) dv).getD
              (argmaxIdx (rawSims sqrtFn (embed text) dv)) 0,
           st1.labels.getD (argmaxIdx (rawSims sqrtFn (embed text) dv)) "",
           if (rawSims sqrtFn (embed text) dv).getD
              (argmaxIdx (rawSims sqrtFn (embed text) dv)) 0 < threshold
           then false else true⟩) := by
  have h3' : dv.isEmpty = false := by simp [List.isEmpty_iff, h3]
  simp only [predict, if_neg h0, h1, h2, h3', Bool.false_eq_true, if_false]

theorem find?_filter_ne {α : Type} (l : List (String × α)) (k p : String) (h : p ≠ k) :
    (l.filter fun q => q.1 != k).find? (fun q => q.1 == p)
      = l.find? (fun q => q.1 == p) := by
  induction l with
  | nil => rfl
  | cons x xs ih =>
    rcases eq_or_ne x.1 k with hk | hk
    · have hxp : (x.1 == p) = false := by
        simp only [beq_eq_false_iff_ne, ne_eq, hk]
        exact fun he => h he.symm
      have hfk : (x.1 != k) = false := by simp [hk]
      simp [List.filter_cons, hfk, List.find?_cons, hxp, ih]
    · have hfk : (x.1 != k) = true := by simp [hk]
      simp only [List.filter_cons, hfk, if_true]
      cases hbe : (x.1 == p) <;> simp [List.find?_cons, hbe, ih]

theorem getA_setA_self {α : Type} (l : List (String × α)) (k : String) (v : α) :
    getA (setA l k v) k = some v := by
  simp only [getA, setA, List.find?_append]
  have h1 : (l.filter fun p => p.1 != k).find? (fun p => p.1 == k) = Option.none := by
    rw [List.find?_eq_none]
    intro x hx
    have := List.of_mem_filter hx
    simpa using this
  simp [h1, List.find?_cons]

theorem getA_setA_other {α : Type} (l : List (String × α)) (k p : String) (v : α)
    (h : p ≠ k) : getA (setA l k v) p = getA l p := by
  simp only [getA, setA, List.find?_append, find?_filter_ne l k p h]
  have h2 : ((k, v).1 == p) = false := by
    simp only [beq_eq_false_iff_ne, ne_eq]
    exact fun he => h he.symm
  cases hfind : l.find? (fun q => q.1 == p) <;> simp [List.find?_cons, h2]

theorem getA_delA_other {α : Type} (l : List (String × α)) (k p : String)
    (h : p ≠ k) : getA (delA l k) p = getA l p := by
  simp only [getA, delA, find?_filter_ne l k p h]

def stepStore (embed : List Char → List ℚ) (prev : List (String × String))
    (label : String) (d : Doc) (old : Option EmbEntry) : Option EmbEntry :=
  if (getA prev d.path != some d.fp) || old.isNone then
    match d.extract with
    | .raises _ => old
    | .ok text => if pyStrip text ≠ [] then some (EmbEntry.good (embed text) label) else old
  else old

def stepEvents (prev : List (String × String)) (_label : String) (d : Doc)
    (old : Option EmbEntry) : List Event :=
  if (getA prev d.path != some d.fp) || old.isNone then
    match d.extract with
    | .raises _ => [Event.extractCall d.path, Event.failedEmbed d.path]
    | .ok text =>
      if pyStrip text ≠ [] then [Event.extractCall d.path, Event.updatedEmbedding d.path]
      else [Event.extractCall d.path]
  else []

def stepAsm (embed : List Char → List ℚ) (prev : List (String × String))
    (label : String) (d : Doc) (old : Option EmbEntry) : List (List ℚ × String) :=
  match stepStore embed prev label d old with
  | some (.good v lb) => [(v, lb)]
  | _ => []

theorem processDoc_store_self (embed : List Char → List ℚ) (prev : List (String × String))
    (acc : LoadAcc) (pd : String × Doc) :
    getA (processDoc embed prev acc pd).store pd.2.path
      = stepStore embed prev pd.1 pd.2 (getA acc.store pd.2.path) := by
  obtain ⟨label, d⟩ := pd
  simp only [processDoc, stepStore]
  split <;> rename_i hcond
  · cases hx : d.extract with
    | raises m => simp
    | ok text =>
      by_cases ht : pyStrip text ≠ [] <;> simp [ht, getA_setA_self]
  · simp

theorem processDoc_store_other (embed : List Char → List ℚ) (prev : List (String × String))
    (acc : LoadAcc) (pd : String × Doc) (p : String) (h : p ≠ pd.2.path) :
    getA (processDoc embed prev acc pd).store p = getA acc.store p := by
  obtain ⟨_label, d⟩ := pd
  simp only [processDoc]
  split <;> rename_i hcond
  · cases hx : d.extract with
    | raises m => simp
    | ok text =>
      by_cases ht : pyStrip text ≠ [] <;> simp [ht, getA_setA_other _ _ _ _ h]
  · simp

theorem processDoc_events (embed : List Char → List ℚ) (prev : List (String × String))
    (acc : LoadAcc) (pd : String × Doc) :
    (processDoc embed prev acc pd).events
      = acc.events ++ stepEvents prev pd.1 pd.2 (getA acc.store pd.2.path) := by
  obtain ⟨_label, d⟩ := pd
  simp only [processDoc, stepEvents]
  split <;> rename_i hcond
  · cases hx : d.extract with
    | raises m => simp
    | ok text => by_cases ht : pyStrip text ≠ [] <;> simp [ht]
  · simp

theorem processDoc_assembled (embed : List Char → List ℚ) (prev : List (String × String))
    (acc : LoadAcc) (pd : String × Doc) :
    (processDoc embed prev acc pd).assembled
      = acc.assembled ++ stepAsm embed prev pd.1 pd.2 (getA acc.store pd.2.path) := by
  obtain ⟨label, d⟩ := pd
  have hs := processDoc_store_self embed prev acc (label, d)
  simp only [processDoc] at hs ⊢
  simp only [stepAsm, ← hs]
  cases hg : getA (processDoc embed prev acc (label, d)).store d.path with
  | none => simp only [processDoc] at hg; rw [hg]; simp
  | some e =>
    simp only [processDoc] at hg
    rw [hg]
    cases e <;> simp

theorem processDoc_newHashes (embed : List Char → List ℚ) (prev : List (String × String))
    (acc : LoadAcc) (pd : String × Doc) :
    (processDoc embed prev acc pd).newHashes = setA acc.newHashes pd.2.path pd.2.fp := rfl

theorem getA_foldl_delA_not_mem {α : Type} (ks : List String) (s : List (String × α))
    (p : String) (h : p ∉ ks) : getA (ks.foldl delA s) p = getA s p := by
  induction ks generalizing s with
  | nil => rfl
  | cons k rest ih =>
    simp only [List.mem_cons, not_or] at h
    simp only [List.foldl_cons]
    rw [ih _ h.2, getA_delA_other _ _ _ h.1]

theorem mem_keys_setA {α : Type} (l : List (String × α)) (k p : String) (v : α)
    (h : p ∈ (setA l k v).map Prod.fst) : p ∈ l.map Prod.fst ∨ p = k := by
  simp only [setA, List.map_append, List.mem_append, List.map_cons, List.map_nil,
    List.mem_singleton] at h
  rcases h with h | h
  · left
    rcases List.mem_map.mp h with ⟨q, hq, rfl⟩
    exact List.mem_map_of_mem _ (List.mem_of_mem_filter hq)
  · right; exact h

theorem loadFold_store_not_mem (embed : List Char → List ℚ) (prev : List (String × String))
    (l : List (String × Doc)) (acc : LoadAcc) (p : String)
    (h : p ∉ l.map fun pd => pd.2.path) :
    getA (l.foldl (processDoc embed prev) acc).store p = getA acc.store p := by
  induction l generalizing acc with
  | nil => rfl
  | cons pd rest ih =>
    simp only [List.map_cons, List.mem_cons, not_or] at h
    simp only [List.foldl_cons]
    rw [ih _ h.2, processDoc_store_other _ _ _ _ _ h.1]

theorem loadFold_store_at (embed : List Char → List ℚ) (prev : List (String × String))
    (l : List (String × Doc)) (acc : LoadAcc)
    (hnd : (l.map fun pd => pd.2.path).Nodup) (pd : String × Doc) (hmem : pd ∈ l) :
    getA (l.foldl (processDoc embed prev) acc).store pd.2.path
      = stepStore embed prev pd.1 pd.2 (getA acc.store pd.2.path) := by
  induction l generalizing acc with
  | nil => cases hmem
  | cons hd rest ih =>
    simp only [List.map_cons, List.nodup_cons] at hnd
    rcases List.mem_cons.mp hmem with rfl | hmem'
    · simp only [List.foldl_cons]
      rw [loadFold_store_not_mem _ _ _ _ _ hnd.1, processDoc_store_self]
    · have hne : pd.2.path ≠ hd.2.path := by
        intro he
        exact hnd.1 (he ▸ List.mem_map_of_mem (fun x => x.2.path) hmem')
      simp only [List.foldl_cons]
      rw [ih _ hnd.2 hmem', processDoc_store_other _ _ _ _ _ hne]

theorem loadFold_events (embed : List Char → List ℚ) (prev : List (String × String))
    (l : List (String × Doc)) (acc : LoadAcc)
    (hnd : (l.map fun pd => pd.2.path).Nodup) :
    (l.foldl (processDoc embed prev) acc).events
      = acc.events
        ++ l.flatMap fun pd => stepEvents prev pd.1 pd.2 (getA acc.store pd.2.path) := by
  induction l generalizing acc with
  | nil => simp
  | cons hd rest ih =>
    simp only [List.map_cons, List.nodup_cons] at hnd
    simp only [List.foldl_cons, List.flatMap_cons]
    rw [ih _ hnd.2, processDoc_events, List.append_assoc]
    congr 1
    congr 1
    refine List.flatMap_congr fun pd' hpd' => ?_
    have hne : pd'.2.path ≠ hd.2.path := by
      intro he
      exact hnd.1 (he ▸ List.mem_map_of_mem (fun x => x.2.path) hpd')
    rw [processDoc_store_other _ _ _ _ _ hne]

theorem loadFold_assembled (embed : List Char → List ℚ) (prev : List (String × String))
    (l : List (String × Doc)) (acc : LoadAcc)
    (hnd : (l.map fun pd => pd.2.path).Nodup) :
    (l.foldl (processDoc embed prev) acc).assembled
      = acc.assembled
        ++ l.flatMap fun pd => stepAsm embed prev pd.1 pd.2 (getA acc.store pd.2.path) := by
  induction l generalizing acc with
  | nil => simp
  | cons hd rest ih =>
    simp only [List.map_cons, List.nodup_cons] at hnd
    simp only [List.foldl_cons, List.flatMap_cons]
    rw [ih _ hnd.2, processDoc_assembled, List.append_assoc]
    congr 1
    congr 1
    refine List.flatMap_congr fun pd' hpd' => ?_
    have hne : pd'.2.path ≠ hd.2.path := by
      intro he
      exact hnd.1 (he ▸ List.mem_map_of_mem (fun x => x.2.path) hpd')
    rw [processDoc_store_other _ _ _ _ _ hne]

theorem loadFold_newHashes_not_mem (embed : List Char → List ℚ)
    (prev : List (String × String)) (l : List (String × Doc)) (acc : LoadAcc) (p : String)
    (h : p ∉ l.map fun pd => pd.2.path) :
    getA (l.foldl (processDoc embed prev) acc).newHashes p = getA acc.newHashes p := by
  induction l generalizing acc with
  | nil => rfl
  | cons pd rest ih =>
    simp only [List.map_cons, List.mem_cons, not_or] at h
    simp only [List.foldl_cons]
    rw [ih _ h.2, processDoc_newHashes, getA_setA_other _ _ _ _ h.1]

theorem loadFold_newHashes_at (embed : List Char → List ℚ)
    (prev : List (String × String)) (l : List (String × Doc)) (acc : LoadAcc)
    (hnd : (l.map fun pd => pd.2.path).Nodup) (pd : String × Doc) (hmem : pd ∈ l) :
    getA (l.foldl (processDoc embed prev) acc).newHashes pd.2.path = some pd.2.fp := by
  induction l generalizing acc with
  | nil => cases hmem
  | cons hd rest ih =>
    simp only [List.map_cons, List.nodup_cons] at hnd
    rcases List.mem_cons.mp hmem with rfl | hmem'
    · simp only [List.foldl_cons]
      rw [loadFold_newHashes_not_mem _ _ _ _ _ hnd.1, processDoc_newHashes, getA_setA_self]
    · simp only [List.foldl_cons]
      exact ih _ hnd.2 hmem'

theorem loadFold_newHashes_keys (embed : List Char → List ℚ)
    (prev : List (String × String)) (l : List (String × Doc)) (acc : LoadAcc) (p : String)
    (hp : p ∈ (l.foldl (processDoc embed prev) acc).newHashes.map Prod.fst) :
    p ∈ acc.newHashes.map Prod.fst ∨ p ∈ l.map fun pd => pd.2.path := by
  induction l generalizing acc with
  | nil => exact Or.inl hp
  | cons hd rest ih =>
    simp only [List.foldl_cons] at hp
    rcases ih _ hp with h | h
    · rw [processDoc_newHashes] at h
      rcases mem_keys_setA _ _ _ _ h with h' | h'
      · exact Or.inl h'
      · exact Or.inr (by simp [h'])
    · exact Or.inr (by simp [h])

theorem isEmpty_map {α β : Type} (f : α → β) (l : List α) :
    (l.map f).isEmpty = l.isEmpty := by cases l <;> rfl

def loadRun (embed : List Char → List ℚ) (prev : List (String × String))
    (dirs : List (String × List Doc)) (store0 : List (String × EmbEntry)) : LoadAcc :=
  (corpusDocs dirs).foldl (processDoc embed prev) ⟨store0, [], [], []⟩

theorem train_ok_char (embed : List Char → List ℚ) (st : ClassifierState)
    (prev : List (String × String))
    (hprev : previousOf st.hashFile = PyVal.obj prev) :
    train embed st =
      (let kept := st.dataDir.filter fun ld => !ld.2.isEmpty
       let acc := loadRun embed prev kept st.embeddings
       let current := (corpusDocs kept).map fun pd => pd.2.path
       let deleted := (prev.map Prod.fst).filter fun p => !(current.contains p)
       .ok ⟨{ dataDir := kept,
              embeddings := deleted.foldl delA acc.store,
              hashFile := if acc.assembled.isEmpty then st.hashFile
                          else HashFile.dict acc.newHashes,
              modelFile := if acc.assembled.isEmpty then st.modelFile
                           else ModelFile.stored (acc.assembled.map Prod.fst)
                                  (acc.assembled.map Prod.snd),
              doc_vectors := if acc.assembled.isEmpty then Option.none
                             else some (acc.assembled.map Prod.fst),
              labels := acc.assembled.map Prod.snd },
            ((st.dataDir.filter fun ld => ld.2.isEmpty).map fun ld => Event.pruned ld.1)
              ++ (acc.events ++ deleted.map Event.removed)⟩) := by
  simp only [train, _load_data, hprev, loadRun]
  rcases Bool.eq_false_or_eq_true
      ((corpusDocs (st.dataDir.filter fun ld => !ld.2.isEmpty)).foldl
        (processDoc embed prev)
        ⟨st.embeddings, [], [], []⟩).assembled.isEmpty with hA | hA <;>
    simp [hA, isEmpty_map]

theorem stepStore_none_extract (embed : List Char → List ℚ) (prev : List (String × String))
    (label : String) (d : Doc) (old : Option EmbEntry)
    (h : stepStore embed prev label d old = Option.none) :
    old = Option.none ∧ ∀ text, d.extract = ExtractRes.ok text → pyStrip text = [] := by
  unfold stepStore at h
  by_cases hc : ((getA prev d.path != some d.fp) || old.isNone) = true
  · rw [if_pos hc] at h
    cases hx : d.extract with
    | raises m =>
      rw [hx] at h
      dsimp only at h
      exact ⟨h, fun t ht => ExtractRes.noConfusion ht⟩
    | ok text =>
      rw [hx] at h
      dsimp only at h
      by_cases ht : pyStrip text ≠ []
      · rw [if_pos ht] at h; cases h
      · push_neg at ht
        rw [if_neg (by simpa using ht)] at h
        refine ⟨h, fun t hts => ?_⟩
        obtain rfl : text = t := by injection hts
        exact ht
  · rw [if_neg hc] at h
    exfalso
    rw [h] at hc
    simp at hc

theorem stepStore_ne_none_of_good (embed : List Char → List ℚ)
    (prev : List (String × String)) (label : String) (d : Doc) (old : Option EmbEntry)
    (text : List Char) (hx : d.extract = ExtractRes.ok text) (ht : pyStrip text ≠ []) :
    stepStore embed prev label d old ≠ Option.none := by
  intro h
  obtain ⟨-, hall⟩ := stepStore_none_extract embed prev label d old h
  exact ht (hall text hx)

theorem stepEvents_no_updated (embed : List Char → List ℚ)
    (prev prev2 : List (String × String)) (label label2 : String) (d : Doc)
    (old : Option EmbEntry) (q : String)
    (hfp : getA prev2 d.path = some d.fp) :
    Event.updatedEmbedding q
      ∉ stepEvents prev2 label2 d (stepStore embed prev label d old) := by
  unfold stepEvents
  have hb : (getA prev2 d.path != some d.fp) = false := by simp [hfp]
  rw [hb, Bool.false_or]
  cases ho : stepStore embed prev label d old with
  | some e => simp
  | none =>
    obtain ⟨-, hext⟩ := stepStore_none_extract embed prev label d old ho
    simp only [Option.isNone_none, if_true]
    cases hx : d.extract with
    | raises m => simp
    | ok text =>
      have h0 : pyStrip text = [] := hext text hx
      simp [h0]

theorem stepEvents_extract_mem (prev2 : List (String × String)) (label2 : String)
    (d : Doc) (old2 : Option EmbEntry) (q : String)
    (hfp : getA prev2 d.path = some d.fp)
    (hmem : Event.extractCall q ∈ stepEvents prev2 label2 d old2) :
    q = d.path ∧ old2 = Option.none := by
  unfold stepEvents at hmem
  have hb : (getA prev2 d.path != some d.fp) = false := by simp [hfp]
  rw [hb, Bool.false_or] at hmem
  cases ho : old2 with
  | some e => rw [ho] at hmem; simp at hmem
  | none =>
    rw [ho] at hmem
    simp only [Option.isNone_none, if_true] at hmem
    refine ⟨?_, rfl⟩
    cases hx : d.extract with
    | raises m => rw [hx] at hmem; simp at hmem; exact hmem
    | ok text =>
      rw [hx] at hmem
      by_cases ht : pyStrip text ≠ []
      · simp [ht] at hmem; exact hmem
      · simp [ht] at hmem; exact hmem

theorem filter_keep_idem (dirs : List (String × List Doc)) :
    ((dirs.filter fun ld => !ld.2.isEmpty).filter fun ld => !ld.2.isEmpty)
      = dirs.filter fun ld => !ld.2.isEmpty := by
  rw [List.filter_filter]
  exact List.filter_congr fun a _ => Bool.and_self _

theorem corpusDocs_filter_sublist (dirs : List (String × List Doc))
    (f : String × List Doc → Bool) :
    List.Sublist (corpusDocs (dirs.filter f)) (corpusDocs dirs) := by
  induction dirs with
  | nil => simp [corpusDocs]
  | cons ld rest ih =>
    simp only [corpusDocs, List.filter_cons] at ih ⊢
    by_cases hf : f ld
    · simp only [hf, if_true, List.flatMap_cons]
      exact ih.append_left _
    · simp only [hf, Bool.false_eq_true, if_false, List.flatMap_cons]
      exact ih.trans (List.sublist_append_right _ _)

theorem train_second_run (embed : List Char → List ℚ) (st : ClassifierState) (o1 : TrainOut)
    (hnd : ((corpusDocs st.dataDir).map fun pd => pd.2.path).Nodup)
    (h1 : train embed st = .ok o1)
    (h2 : o1.state.doc_vectors ≠ Option.none) :
    ∃ o2, train embed o1.state = .ok o2
      ∧ (∀ p, Event.updatedEmbedding p ∉ o2.events)
      ∧ (∃ hs, o1.state.hashFile = HashFile.dict hs
           ∧ ∀ pd ∈ corpusDocs o1.state.dataDir, getA hs pd.2.path = some pd.2.fp)
      ∧ (∀ p, Event.extractCall p ∈ o2.events → getA o1.state.embeddings p = Option.none)
      ∧ (∀ pd ∈ corpusDocs o1.state.dataDir, ∀ text,
           pd.2.extract = ExtractRes.ok text → pyStrip text ≠ [] →
           getA o1.state.embeddings pd.2.path ≠ Option.none) := by
  -- the previous snapshot parsed as a dict, else train would have raised
  obtain ⟨prev, hprev⟩ : ∃ prev, previousOf st.hashFile = PyVal.obj prev := by
    cases hHF : st.hashFile with
    | missing => exact ⟨[], rfl⟩
    | invalidJson => exact ⟨[], rfl⟩
    | jsonNonDict => simp [train, previousOf, hHF, _load_data] at h1
    | dict d => exact ⟨d, rfl⟩
  have hchar := train_ok_char embed st prev hprev
  rw [h1] at hchar
  have ho1 := Except.ok.inj hchar
  subst ho1
  dsimp only at h2 ⊢
  have hA : ((loadRun embed prev (st.dataDir.filter fun ld => !ld.2.isEmpty)
      st.embeddings).assembled).isEmpty = false := by
    rcases Bool.eq_false_or_eq_true
        ((loadRun embed prev (st.dataDir.filter fun ld => !ld.2.isEmpty)
          st.embeddings).assembled).isEmpty with h | h
    · exact absurd (by simp [h]) h2
    · exact h
  simp only [hA, Bool.false_eq_true, if_false] at h2 ⊢
  set kept := st.dataDir.filter fun ld => !ld.2.isEmpty with hkept
  set acc1 := loadRun embed prev kept st.embeddings with hacc1
  set current := (corpusDocs kept).map fun pd => pd.2.path with hcur
  set deleted := (prev.map Prod.fst).filter fun p => !(current.contains p) with hdel
  set store1 := deleted.foldl delA acc1.store with hstore1
  have hnd2 : ((corpusDocs kept).map fun pd => pd.2.path).Nodup :=
    List.Nodup.sublist ((corpusDocs_filter_sublist st.dataDir _).map _) hnd
  have hfp : ∀ pd ∈ corpusDocs kept, getA acc1.newHashes pd.2.path = some pd.2.fp := by
    intro pd hmem
    rw [hacc1]
    simp only [loadRun]
    exact loadFold_newHashes_at embed prev _ _ hnd2 pd hmem
  have hstore_at : ∀ pd ∈ corpusDocs kept, getA store1 pd.2.path
      = stepStore embed prev pd.1 pd.2 (getA st.embeddings pd.2.path) := by
    intro pd hmem
    have hpcur : pd.2.path ∈ current := by
      rw [hcur]
      exact List.mem_map_of_mem _ hmem
    have hpdel : pd.2.path ∉ deleted := by
      intro hmemdel
      rw [hdel] at hmemdel
      have := List.of_mem_filter hmemdel
      simp [hpcur] at this
    rw [hstore1, getA_foldl_delA_not_mem _ _ _ hpdel, hacc1]
    simp only [loadRun]
    exact loadFold_store_at embed prev _ _ hnd2 pd hmem
  have hkeep2 : kept.filter (fun ld => !ld.2.isEmpty) = kept := by
    rw [hkept]
    exact filter_keep_idem _
  refine ⟨_, train_ok_char embed _ acc1.newHashes rfl, ?_, ?_, ?_, ?_⟩
  · -- no updatedEmbedding event on the second run
    intro p hp
    rw [hkeep2] at hp
    simp only [List.mem_append] at hp
    rcases hp with hp | hp | hp
    · rcases List.mem_map.mp hp with ⟨ld, -, heq⟩
      exact Event.noConfusion heq
    · rw [loadRun, loadFold_events embed acc1.newHashes _ _ hnd2] at hp
      simp only [List.nil_append, List.mem_flatMap] at hp
      obtain ⟨pd, hpd, hin⟩ := hp
      rw [hstore_at pd hpd] at hin
      exact stepEvents_no_updated embed prev acc1.newHashes pd.1 pd.1 pd.2 _ p
        (hfp pd hpd) hin
    · rcases List.mem_map.mp hp with ⟨q, -, heq⟩
      exact Event.noConfusion heq
  · -- every fingerprint is in the persisted snapshot
    exact ⟨acc1.newHashes, rfl, hfp⟩
  · -- extract_text is called only for paths with no cached record
    intro p hp
    rw [hkeep2] at hp
    simp only [List.mem_append] at hp
    rcases hp with hp | hp | hp
    · rcases List.mem_map.mp hp with ⟨ld, -, heq⟩
      exact Event.noConfusion heq
    · rw [loadRun, loadFold_events embed acc1.newHashes _ _ hnd2] at hp
      simp only [List.nil_append, List.mem_flatMap] at hp
      obtain ⟨pd, hpd, hin⟩ := hp
      obtain ⟨rfl, hnone⟩ := stepEvents_extract_mem acc1.newHashes pd.1 pd.2 _ p
        (hfp pd hpd) hin
      exact hnone
    · rcases List.mem_map.mp hp with ⟨q, -, heq⟩
      exact Event.noConfusion heq
  · -- successfully embedded documents keep their cached record
    intro pd hpd text hx ht
    rw [hstore_at pd hpd]
    exact stepStore_ne_none_of_good embed prev pd.1 pd.2 _ text hx ht

/-- C10: when a corpus document's fingerprint no longer matches the snapshot
but its text extraction raises (a handled exception type) or yields only
whitespace, training keeps the previously cached `(vector, label)` record,
includes it in the rebuilt aggregate model, and persists the NEW fingerprint
in the snapshot — so a subsequent run with no further changes neither
re-extracts nor re-embeds the document, even though its content changed. -/
theorem c10_stale_embedding_retained (embed : List Char → List ℚ) (st : ClassifierState)
    (pd : String × Doc) (v : List ℚ) (lb : String) (prevD : List (String × String))
    (hnd : ((corpusDocs st.dataDir).map fun x => x.2.path).Nodup)
    (hHF : st.hashFile = HashFile.dict prevD)
    (hmem : pd ∈ corpusDocs (st.dataDir.filter fun ld => !ld.2.isEmpty))
    (hold : getA st.embeddings pd.2.path = some (EmbEntry.good v lb))
    (hmis : getA prevD pd.2.path ≠ some pd.2.fp)
    (hext : ∀ text, pd.2.extract = ExtractRes.ok text → pyStrip text = []) :
    ∃ o1, train embed st = .ok o1
      ∧ getA o1.state.embeddings pd.2.path = some (EmbEntry.good v lb)
      ∧ (∃ vecs labs, o1.state.modelFile = ModelFile.stored vecs labs
           ∧ (v, lb) ∈ vecs.zip labs)
      ∧ (∃ hs, o1.state.hashFile = HashFile.dict hs ∧ getA hs pd.2.path = some pd.2.fp)
      ∧ (∃ o2, train embed o1.state = .ok o2
           ∧ (∀ q, Event.updatedEmbedding q ∉ o2.events)
           ∧ Event.extractCall pd.2.path ∉ o2.events) := by
  have hprev : previousOf st.hashFile = PyVal.obj prevD := by rw [hHF]; rfl
  have hchar := train_ok_char embed st prevD hprev
  set kept := st.dataDir.filter fun ld => !ld.2.isEmpty with hkept
  have hnd2 : ((corpusDocs kept).map fun x => x.2.path).Nodup :=
    List.Nodup.sublist ((corpusDocs_filter_sublist st.dataDir _).map _) hnd
  have hstep : stepStore embed prevD pd.1 pd.2 (getA st.embeddings pd.2.path)
      = some (EmbEntry.good v lb) := by
    unfold stepStore
    have hb : (getA prevD pd.2.path != some pd.2.fp) = true := by
      simpa using hmis
    rw [hb, Bool.true_or, if_pos rfl]
    cases hx : pd.2.extract with
    | raises m => exact hold
    | ok t =>
      dsimp only
      rw [if_neg (by simp [hext t hx])]
      exact hold
  have hA_mem : (v, lb) ∈ (loadRun embed prevD kept st.embeddings).assembled := by
    simp only [loadRun]
    rw [loadFold_assembled embed prevD _ _ hnd2]
    refine List.mem_append.mpr (Or.inr (List.mem_flatMap.mpr ⟨pd, hmem, ?_⟩))
    simp only [stepAsm]
    rw [hstep]
    simp
  have hAne : (loadRun embed prevD kept st.embeddings).assembled.isEmpty = false := by
    cases hl : (loadRun embed prevD kept st.embeddings).assembled with
    | nil => rw [hl] at hA_mem; cases hA_mem
    | cons a t => rfl
  have hstore_at : getA
      ((((prevD.map Prod.fst).filter fun p =>
          !(((corpusDocs kept).map fun x => x.2.path).contains p)).foldl delA
        (loadRun embed prevD kept st.embeddings).store)) pd.2.path
      = some (EmbEntry.good v lb) := by
    have hpcur : pd.2.path ∈ (corpusDocs kept).map fun x => x.2.path :=
      List.mem_map_of_mem _ hmem
    have hpdel : pd.2.path ∉ (prevD.map Prod.fst).filter fun p =>
        !(((corpusDocs kept).map fun x => x.2.path).contains p) := by
      intro hmemdel
      have := List.of_mem_filter hmemdel
      simp [hpcur] at this
    rw [getA_foldl_delA_not_mem _ _ _ hpdel]
    simp only [loadRun]
    rw [loadFold_store_at embed prevD _ _ hnd2 pd hmem]
    exact hstep
  refine ⟨_, hchar, ?_, ?_, ?_, ?_⟩
  · exact hstore_at
  · simp only [hAne, Bool.false_eq_true, if_false]
    refine ⟨_, _, rfl, ?_⟩
    rw [List.zip_map']
    exact List.mem_map.mpr ⟨(v, lb), hA_mem, rfl⟩
  · simp only [hAne, Bool.false_eq_true, if_false]
    refine ⟨(loadRun embed prevD kept st.embeddings).newHashes, rfl, ?_⟩
    simp only [loadRun]
    exact loadFold_newHashes_at embed prevD _ _ hnd2 pd hmem
  · obtain ⟨o2, ho2, hnoupd, -, hext2, -⟩ :=
      train_second_run embed st _ hnd hchar (by simp [hAne])
    refine ⟨o2, ho2, hnoupd, fun hmem2 => ?_⟩
    exact Option.noConfusion (hstore_at.symm.trans (hext2 _ hmem2))

/-- C6 (amended): running `train` twice with no corpus change (the state is
unchanged, extraction and fingerprints deterministic) computes no new
embedding on the second run, and every document's recomputed fingerprint
equals the persisted snapshot value, provided the first run persisted it
(at least one row assembled); text extraction is re-attempted exactly for
the documents with no cached embedding record (those whose extraction
failed or produced only whitespace), while every successfully embedded
document keeps its record and is skipped. -/
theorem c6_idempotent_amended (embed : List Char → List ℚ) (st : ClassifierState)
    (o1 : TrainOut)
    (hnd : ((corpusDocs st.dataDir).map fun pd => pd.2.path).Nodup)
    (h1 : train embed st = .ok o1)
    (h2 : o1.state.doc_vectors ≠ Option.none) :
    ∃ o2, train embed o1.state = .ok o2
      ∧ (∀ p, Event.updatedEmbedding p ∉ o2.events)
      ∧ (∃ hs, o1.state.hashFile = HashFile.dict hs
           ∧ ∀ pd ∈ corpusDocs o1.state.dataDir, getA hs pd.2.path = some pd.2.fp)
      ∧ (∀ p, Event.extractCall p ∈ o2.events → getA o1.state.embeddings p = Option.none)
      ∧ (∀ pd ∈ corpusDocs o1.state.dataDir, ∀ text,
           pd.2.extract = ExtractRes.ok text → pyStrip text ≠ [] →
           getA o1.state.embeddings pd.2.path ≠ Option.none) :=
  train_second_run embed st o1 hnd h1 h2

section ConcreteEvaluation

attribute [local semireducible] Rat.add Rat.sub Rat.mul Rat.inv

/-- C7: `from_dict` clamps `boost`: a numeric value below 0.0 loads as the
sentinel −1.0, a numeric value above the 0.07 ceiling loads as 0.07, and a
missing or non-numeric value loads as the default −1.0; in particular 0.5
loads as 0.07 and −10.0 loads as −1.0. -/
theorem c7_boost_clamped (raw : List (String × RawValue)) (v : PyNum) :
    ((lookupRaw raw "boost" = RawValue.num v ∧ v.toRat < 0) →
      (LabelConfig.from_dict raw).boost = PyNum.float (-1))
    ∧ ((lookupRaw raw "boost" = RawValue.num v ∧ 7 / 100 < v.toRat) →
      (LabelConfig.from_dict raw).boost = PyNum.float (7 / 100))
    ∧ ((∀ w : PyNum, lookupRaw raw "boost" ≠ RawValue.num w) →
      (LabelConfig.from_dict raw).boost = PyNum.float (-1))
    ∧ (LabelConfig.from_dict [("boost", RawValue.num (PyNum.float (1 / 2)))]).boost
        = PyNum.float (7 / 100)
    ∧ (LabelConfig.from_dict [("boost", RawValue.num (PyNum.float (-10)))]).boost
        = PyNum.float (-1) := by
  refine ⟨?_, ?_, ?_, by decide, by decide⟩
  · rintro ⟨h1, h2⟩
    rw [from_dict_boost raw]
    simp only [h1]
    rw [if_pos h2]
  · rintro ⟨h1, h2⟩
    rw [from_dict_boost raw]
    simp only [h1]
    rw [if_neg (by exact not_lt.mpr (le_of_lt (lt_trans (by norm_num) h2))), if_pos h2]
  · intro h
    rw [from_dict_boost raw]
    rcases hl : lookupRaw raw "boost" with s | w | l | _
    · simp only; rw [if_pos (by norm_num [PyNum.toRat])]
    · exact absurd hl (h w)
    · simp only; rw [if_pos (by norm_num [PyNum.toRat])]
    · simp only; rw [if_pos (by norm_num [PyNum.toRat])]

/-- Witness for C7: the three clamping branches exercised at concrete inputs
(−5.0 numeric below zero; 0.5 numeric above the ceiling; a string value). -/
theorem c7_boost_clamped_witness :
    (LabelConfig.from_dict [("boost", RawValue.num (PyNum.float (-5)))]).boost
        = PyNum.float (-1)
    ∧ (LabelConfig.from_dict [("boost", RawValue.num (PyNum.float (1 / 2)))]).boost
        = PyNum.float (7 / 100)
    ∧ (LabelConfig.from_dict [("boost", RawValue.str "x".toList)]).boost
        = PyNum.float (-1) :=
  ⟨(c7_boost_clamped [("boost", RawValue.num (PyNum.float (-5)))] (PyNum.float (-5))).1
      ⟨rfl, by norm_num [PyNum.toRat]⟩,
   (c7_boost_clamped [("boost", RawValue.num (PyNum.float (1 / 2)))] (PyNum.float (1 / 2))).2.1
      ⟨rfl, by norm_num [PyNum.toRat]⟩,
   (c7_boost_clamped [("boost", RawValue.str "x".toList)] (PyNum.int 0)).2.2.1
      (fun w h => RawValue.noConfusion h)⟩

/-- C8 counterexample: loading `{"boost": 0}` (a Python `int`) yields a
config whose `boost` is numeric and `≥ 0.0` and whose `boost_phrases` is a
valid (empty) list, yet `is_complete` returns `False`, because the code also
requires `isinstance(self.boost, float)`. -/
theorem c8_counterexample :
    (LabelConfig.from_dict [("boost", RawValue.num (PyNum.int 0))]).is_complete = false
    ∧ (LabelConfig.from_dict [("boost", RawValue.num (PyNum.int 0))]).boost = PyNum.int 0
    ∧ (0 : ℚ) ≤ (PyNum.int 0).toRat
    ∧ (LabelConfig.from_dict [("boost", RawValue.num (PyNum.int 0))]).boost_phrases = [] := by
  refine ⟨by decide, by decide, by norm_num [PyNum.toRat], by decide⟩

/-- C8 (amended): `is_complete` returns true iff `boost` is a Python float
(not an int) with value ≥ 0.0 — and `boost_phrases` is a list, which in this
model holds by construction. An integer boost such as 0, which `from_dict`
leaves unconverted, yields `False` despite being numeric and ≥ 0.0. -/
theorem c8_is_complete_amended (c : LabelConfig) :
    c.is_complete = true ↔ ∃ q : ℚ, c.boost = PyNum.float q ∧ 0 ≤ q := by
  cases h : c.boost with
  | int n => simp [LabelConfig.is_complete, h]
  | float q => simp [LabelConfig.is_complete, h]

/-- C9 counterexample: `from_dict` on a comma-separated string for
`boost_phrases` yields the empty-list default, not the split-and-trimmed
list. -/
theorem c9_counterexample :
    (LabelConfig.from_dict
        [("boost_phrases", RawValue.str "alpha, beta".toList)]).boost_phrases = []
    ∧ commaSplit "alpha, beta".toList = ["alpha".toList, "beta".toList]
    ∧ ([] : List (List Char)) ≠ ["alpha".toList, "beta".toList] := by
  refine ⟨by decide, by decide, by decide⟩

/-- C9 (amended): a comma-separated string given for `boost_phrases` or
`preferred_context` fails the list-of-strings validator inside `from_dict`,
so `from_dict` substitutes the empty-list default; the split-and-trim
conversion exists only in `validate_field`, which `from_dict` never calls and
which does return the split list. -/
theorem c9_comma_string_amended (s t : List Char)
    (raw raw2 : List (String × RawValue))
    (h : lookupRaw raw "boost_phrases" = RawValue.str s)
    (h2 : lookupRaw raw2 "preferred_context" = RawValue.str t) :
    (LabelConfig.from_dict raw).boost_phrases = []
    ∧ (LabelConfig.from_dict raw2).preferred_context = []
    ∧ validate_field "boost_phrases" (RawValue.str s)
        = .ok (RawValue.pylist ((commaSplit s).map RawValue.str))
    ∧ validate_field "preferred_context" (RawValue.str t)
        = .ok (RawValue.pylist ((commaSplit t).map RawValue.str)) := by
  have hmap : ∀ u : List Char,
      is_list_of_str (RawValue.pylist ((commaSplit u).map RawValue.str)) = true := by
    intro u
    simp only [is_list_of_str, List.all_eq_true]
    intro v hv
    rcases List.mem_map.mp hv with ⟨a, _, rfl⟩
    rfl
  refine ⟨?_, ?_, ?_, ?_⟩
  · rw [from_dict_boost_phrases raw, h]
    simp [is_list_of_str]
  · rw [from_dict_preferred_context raw2, h2]
    simp [is_list_of_str]
  · simp only [validate_field]
    norm_num
    simp [hmap s]
  · simp only [validate_field]
    norm_num
    simp [hmap t]

/-- Witness for C9 (amended), at the concrete input `"alpha, beta"`. -/
theorem c9_comma_string_amended_witness :
    (LabelConfig.from_dict
        [("boost_phrases", RawValue.str "alpha, beta".toList)]).boost_phrases = []
    ∧ (LabelConfig.from_dict
        [("preferred_context", RawValue.str "alpha, beta".toList)]).preferred_context = []
    ∧ validate_field "boost_phrases" (RawValue.str "alpha, beta".toList)
        = .ok (RawValue.pylist ((commaSplit "alpha, beta".toList).map RawValue.str))
    ∧ validate_field "preferred_context" (RawValue.str "alpha, beta".toList)
        = .ok (RawValue.pylist ((commaSplit "alpha, beta".toList).map RawValue.str)) :=
  c9_comma_string_amended "alpha, beta".toList "alpha, beta".toList
    [("boost_phrases", RawValue.str "alpha, beta".toList)]
    [("preferred_context", RawValue.str "alpha, beta".toList)] rfl rfl

/-- C3 counterexample: a prediction whose text extraction raises is rejected
with the extraction-failure `ValueError`, whose message does not contain
"empty" — so it is not the distinguished empty-document condition that the
caller (`pdf_process.predict`) tests for before queuing a file for OCR. -/
theorem c3_counterexample :
    predict (fun _ => []) (fun q => q)
        ⟨[], [], HashFile.missing, ModelFile.absent, Option.none, []⟩
        (ExtractRes.raises "bad xref") 0
      = .error (PyError.valueError "Failed to extract PDF: bad xref")
    ∧ isEmptyDocError (PyError.valueError "Failed to extract PDF: bad xref") = false :=
  ⟨rfl, by decide⟩

/-- C3 (amended): whitespace-only extracted text makes `predict` raise the
distinguished empty-document `ValueError("PDF text is empty.")` before any
model or corpus access, regardless of the classifier state; a raised
extraction error instead surfaces as `ValueError("Failed to extract PDF:
...")` — also before any model access and also without returning a
`Classification`, but not the distinguished empty-document condition. -/
theorem c3_empty_text_amended (embed : List Char → List ℚ) (sqrtFn : ℚ → ℚ)
    (st : ClassifierState) (threshold : ℚ) (text : List Char) (msg : String)
    (h : pyStrip text = []) :
    predict embed sqrtFn st (ExtractRes.ok text) threshold
      = .error (PyError.valueError "PDF text is empty.")
    ∧ isEmptyDocError (PyError.valueError "PDF text is empty.") = true
    ∧ predict embed sqrtFn st (ExtractRes.raises msg) threshold
      = .error (PyError.valueError ("Failed to extract PDF: " ++ msg)) := by
  refine ⟨?_, by decide, rfl⟩
  simp [predict, h]

/-- Witness for C3 (amended): the whitespace-only document `"  "` against a
classifier holding a trained two-row model. -/
theorem c3_empty_text_amended_witness :
    predict (fun _ => [1]) (fun q => q)
        ⟨[], [], HashFile.dict [], ModelFile.stored [[1]] ["a"], some [[1]], ["a"]⟩
        (ExtractRes.ok "  ".toList) 0
      = .error (PyError.valueError "PDF text is empty.")
    ∧ isEmptyDocError (PyError.valueError "PDF text is empty.") = true
    ∧ predict (fun _ => [1]) (fun q => q)
        ⟨[], [], HashFile.dict [], ModelFile.stored [[1]] ["a"], some [[1]], ["a"]⟩
        (ExtractRes.raises "x") 0
      = .error (PyError.valueError ("Failed to extract PDF: " ++ "x")) :=
  c3_empty_text_amended (fun _ => [1]) (fun q => q)
    ⟨[], [], HashFile.dict [], ModelFile.stored [[1]] ["a"], some [[1]], ["a"]⟩
    0 "  ".toList "x" (by decide)

/-- C4 counterexample: a persisted snapshot that parses to a JSON value that
is not a dict (modelled by `HashFile.jsonNonDict`, e.g. a JSON array) makes
`train` raise `AttributeError` at the first attribute access on it, rather
than being treated as the empty mapping. -/
theorem c4_counterexample :
    train (fun _ => [1])
        ⟨[("a", [⟨"p1", "f1", ExtractRes.ok "hello".toList⟩])], [],
         HashFile.jsonNonDict, ModelFile.absent, Option.none, []⟩
      = .error PyError.attributeError := by decide

/-- C4 (amended): a missing or unparseable (invalid-JSON) snapshot file is
replaced by the empty mapping and `train` completes without raising,
behaving exactly as with a missing snapshot (same events and same resulting
corpus, embeddings store, model file, in-memory model; the snapshot file
itself is rewritten only when embeddings were assembled). Content that
parses to a non-dict JSON value is NOT recovered: `train` raises
`AttributeError` (see the counterexample). -/
theorem c4_snapshot_recovery_amended (embed : List Char → List ℚ)
    (st : ClassifierState)
    (h : st.hashFile = HashFile.missing ∨ st.hashFile = HashFile.invalidJson) :
    ∃ out out',
      train embed st = .ok out
      ∧ train embed { st with hashFile := HashFile.missing } = .ok out'
      ∧ out.events = out'.events
      ∧ out.state.dataDir = out'.state.dataDir
      ∧ out.state.embeddings = out'.state.embeddings
      ∧ out.state.modelFile = out'.state.modelFile
      ∧ out.state.doc_vectors = out'.state.doc_vectors
      ∧ out.state.labels = out'.state.labels := by
  obtain ⟨dd, emb, hf, mf, dv, lbs⟩ := st
  simp only at h
  rcases h with h | h <;> subst h <;>
    · simp only [train, previousOf, _load_data]
      repeat' split
      all_goals exact ⟨_, _, rfl, rfl, rfl, rfl, rfl, rfl, rfl, rfl⟩

/-- Witness for C4 (amended): a one-document corpus with an
unparseable snapshot. -/
theorem c4_snapshot_recovery_amended_witness :
    ∃ out out',
      train (fun _ => [1])
          ⟨[("a", [⟨"p1", "f1", ExtractRes.ok "hello".toList⟩])], [],
           HashFile.invalidJson, ModelFile.absent, Option.none, []⟩ = .ok out
      ∧ train (fun _ => [1])
          ⟨[("a", [⟨"p1", "f1", ExtractRes.ok "hello".toList⟩])], [],
           HashFile.missing, ModelFile.absent, Option.none, []⟩ = .ok out'
      ∧ out.events = out'.events
      ∧ out.state.dataDir = out'.state.dataDir
      ∧ out.state.embeddings = out'.state.embeddings
      ∧ out.state.modelFile = out'.state.modelFile
      ∧ out.state.doc_vectors = out'.state.doc_vectors
      ∧ out.state.labels = out'.state.labels :=
  c4_snapshot_recovery_amended (fun _ => [1])
    ⟨[("a", [⟨"p1", "f1", ExtractRes.ok "hello".toList⟩])], [],
     HashFile.invalidJson, ModelFile.absent, Option.none, []⟩ (Or.inr rfl)

/-- C5: a training run that assembles zero embedding rows returns before
persisting anything: the aggregate-model file and the fingerprint snapshot
are exactly what they were before the run. -/
theorem c5_zero_embeddings_frame (embed : List Char → List ℚ)
    (st : ClassifierState) (out : TrainOut)
    (h1 : train embed st = .ok out) (h2 : out.state.doc_vectors = Option.none) :
    out.state.modelFile = st.modelFile ∧ out.state.hashFile = st.hashFile := by
  simp only [train] at h1
  split at h1
  · cases h1
  · rename_i o hok
    split at h1 <;> rename_i hcond
    · cases h1
      exact ⟨rfl, rfl⟩
    · cases h1
      simp only at h2
      simp [h2] at hcond

/-- A state with an empty corpus but previously persisted model and
snapshot, used as the C5 witness input. -/
def stEmptyCorpus : ClassifierState :=
  ⟨[], [], HashFile.dict [("old", "x")], ModelFile.stored [[1]] ["l"], Option.none, []⟩

/-- Witness for C5: training on an empty corpus (zero rows assembled) leaves
the persisted model and snapshot of `stEmptyCorpus` unchanged. -/
theorem c5_zero_embeddings_frame_witness :
    (⟨stEmptyCorpus, [Event.removed "old"]⟩ : TrainOut).state.modelFile
      = stEmptyCorpus.modelFile
    ∧ (⟨stEmptyCorpus, [Event.removed "old"]⟩ : TrainOut).state.hashFile
      = stEmptyCorpus.hashFile :=
  c5_zero_embeddings_frame (fun _ => [1]) stEmptyCorpus
    ⟨stEmptyCorpus, [Event.removed "old"]⟩ (by decide) (by decide)

/-- A query embedding used in the boost counterexamples. -/
def cexEmbed : List Char → List ℚ := fun _ => [1, 0]

/-- Query text containing the configured boost phrase of label `b`. -/
def cexText : List Char := "please boost b now".toList

/-- Aggregate rows for the C1 counterexample: a perfect match on label `a`
and a near match (cosine 99/101) on label `b`; both rows unit-norm. -/
def cexDv1 : List (List ℚ) := [[1, 0], [99/101, 20/101]]

/-- Classifier state holding the C1 counterexample model in memory. -/
def cexSt1 : ClassifierState :=
  ⟨[], [], HashFile.dict [], ModelFile.stored cexDv1 ["a", "b"], some cexDv1, ["a", "b"]⟩

/-- Label configuration giving label `b` a 0.05 boost triggered by the phrase
"boost b". -/
def cexCfg : List (String × LabelConfig) :=
  [("b", ⟨["boost b".toList], PyNum.float (1/20), Option.none, Option.none, [], []⟩)]

/-- Aggregate rows for the C2 counterexample: two unit-norm rows with equal
cosine 99/101 against the query, labels `a` and `b`. -/
def c2Dv : List (List ℚ) := [[99/101, 20/101], [99/101, -20/101]]

/-- Classifier state holding the C2 counterexample model in memory. -/
def c2St : ClassifierState :=
  ⟨[], [], HashFile.dict [], ModelFile.stored c2Dv ["a", "b"], some c2Dv, ["a", "b"]⟩

/-- C1 counterexample: label `b`'s boost phrase occurs in the query text with
boost 0.05 configured, and under the claimed boosted-selection rule the
arg-max row would be `b`'s; but `predict` returns label `a` — no boost is
added to any row before the arg-max. -/
theorem c1_counterexample :
    predict cexEmbed ratSqrt cexSt1 (ExtractRes.ok cexText) 0
      = .ok (cexSt1, ⟨1, "a", true⟩)
    ∧ (getA cexCfg "b").map (fun c => c.get_boost_if_matched cexText)
        = some (PyNum.float (1/20))
    ∧ cexSt1.labels.getD
        (argmaxIdx (specBoostedSims cexCfg cexText
          (rawSims ratSqrt (cexEmbed cexText) cexDv1) cexSt1.labels)) ""
        = "b"
    ∧ ("a" : String) ≠ "b" :=
  ⟨by decide, by decide, by decide, by decide⟩

/-- C1 (amended): `predict` performs no boost addition at all. On any
successfully extracted non-blank query with an available in-memory model, the
returned label is the one at the arg-max of the RAW cosine similarities, and
the spec's boosted-score row coincides with the raw row only in the trivial
case of an empty boost configuration, under which every row's addition is 0.
`LabelConfig.get_boost_if_matched` is never consulted by `predict`. -/
theorem c1_no_boost_amended (embed : List Char → List ℚ) (sqrtFn : ℚ → ℚ)
    (st st1 : ClassifierState) (text : List Char) (threshold : ℚ) (dv : List (List ℚ))
    (h0 : pyStrip text ≠ [])
    (h1 : ensureModel embed st = .ok st1)
    (h2 : st1.doc_vectors = some dv)
    (h3 : dv ≠ [])
    (h4 : st1.labels.length = dv.length) :
    predict embed sqrtFn st (ExtractRes.ok text) threshold
      = .ok (st1,
          ⟨(rawSims sqrtFn (embed text) dv).getD
              (argmaxIdx (rawSims sqrtFn (embed text) dv)) 0,
           st1.labels.getD (argmaxIdx (rawSims sqrtFn (embed text) dv)) "",
           if (rawSims sqrtFn (embed text) dv).getD
              (argmaxIdx (rawSims sqrtFn (embed text) dv)) 0 < threshold
           then false else true⟩)
    ∧ specBoostedSims [] text (rawSims sqrtFn (embed text) dv) st1.labels
        = rawSims sqrtFn (embed text) dv := by
  refine ⟨predict_ok_reduce embed sqrtFn st st1 text threshold dv h0 h1 h2 h3, ?_⟩
  have hlen : (rawSims sqrtFn (embed text) dv).length ≤ st1.labels.length := by
    simp [rawSims, h4]
  calc specBoostedSims [] text (rawSims sqrtFn (embed text) dv) st1.labels
      = ((rawSims sqrtFn (embed text) dv).zip st1.labels).map Prod.fst := by
        apply List.map_congr_left
        intro p _
        simp [specBoostedSims, getA]
    _ = rawSims sqrtFn (embed text) dv := List.map_fst_zip _ _ hlen

/-- Witness for C1 (amended): the counterexample model with the empty boost
configuration. -/
theorem c1_no_boost_amended_witness :
    predict cexEmbed ratSqrt cexSt1 (ExtractRes.ok cexText) 0
      = .ok (cexSt1,
          ⟨(rawSims ratSqrt (cexEmbed cexText) cexDv1).getD
              (argmaxIdx (rawSims ratSqrt (cexEmbed cexText) cexDv1)) 0,
           cexSt1.labels.getD (argmaxIdx (rawSims ratSqrt (cexEmbed cexText) cexDv1)) "",
           if (rawSims ratSqrt (cexEmbed cexText) cexDv1).getD
              (argmaxIdx (rawSims ratSqrt (cexEmbed cexText) cexDv1)) 0 < 0
           then false else true⟩)
    ∧ specBoostedSims [] cexText (rawSims ratSqrt (cexEmbed cexText) cexDv1) cexSt1.labels
        = rawSims ratSqrt (cexEmbed cexText) cexDv1 :=
  c1_no_boost_amended cexEmbed ratSqrt cexSt1 cexSt1 cexText 0 cexDv1
    (by decide) (by decide) (by decide) (by decide) (by decide)

/-- C2 counterexample: with label `b` boosted past label `a`, the claimed
confidence `min(boosted score at arg-max, 1.0)` equals 1, while `predict`
returns confidence 99/101 — the raw cosine at the raw arg-max, with no `min`
applied. -/
theorem c2_counterexample :
    predict cexEmbed ratSqrt c2St (ExtractRes.ok cexText) 0
      = .ok (c2St, ⟨99/101, "a", true⟩)
    ∧ (specBoostedSims cexCfg cexText
          (rawSims ratSqrt (cexEmbed cexText) c2Dv) c2St.labels).getD
        (argmaxIdx (specBoostedSims cexCfg cexText
          (rawSims ratSqrt (cexEmbed cexText) c2Dv) c2St.labels)) 0
        = 2081/2020
    ∧ min ((2081 : ℚ)/2020) 1 = 1
    ∧ (99 : ℚ)/101 ≠ 1 :=
  ⟨by decide, by decide, min_eq_right (by norm_num), by norm_num⟩

/-- C2 (amended): the confidence `predict` returns is the raw cosine score at
the raw arg-max row, with no boost added and no `min(·, 1.0)` cap applied;
when the square root used for normalization is exact on the norms involved,
that score cannot exceed 1 anyway (Cauchy-Schwarz), so the returned
confidence still never exceeds 1.0. -/
theorem c2_confidence_amended (embed : List Char → List ℚ) (sqrtFn : ℚ → ℚ)
    (st st1 : ClassifierState) (text : List Char) (threshold : ℚ) (dv : List (List ℚ))
    (h0 : pyStrip text ≠ [])
    (h1 : ensureModel embed st = .ok st1)
    (h2 : st1.doc_vectors = some dv)
    (h3 : dv ≠ [])
    (hq : 0 ≤ sqrtFn (dotQ (embed text) (embed text)) ∧
          sqrtFn (dotQ (embed text) (embed text)) * sqrtFn (dotQ (embed text) (embed text))
            = dotQ (embed text) (embed text))
    (hrows : ∀ v ∈ dv, 0 ≤ sqrtFn (dotQ v v) ∧
          sqrtFn (dotQ v v) * sqrtFn (dotQ v v) = dotQ v v) :
    ∃ cl, predict embed sqrtFn st (ExtractRes.ok text) threshold = .ok (st1, cl)
      ∧ cl.confidence = (rawSims sqrtFn (embed text) dv).getD
          (argmaxIdx (rawSims sqrtFn (embed text) dv)) 0
      ∧ cl.confidence ≤ 1 :=
  ⟨_, predict_ok_reduce embed sqrtFn st st1 text threshold dv h0 h1 h2 h3, rfl,
   getD_le_one_of_forall _ (rawSims_le_one sqrtFn (embed text) dv hq hrows) _⟩

/-- Witness for C2 (amended): the C2 counterexample model, whose norms are
all 1 so `ratSqrt` is exact on them. -/
theorem c2_confidence_amended_witness :
    ∃ cl, predict cexEmbed ratSqrt c2St (ExtractRes.ok cexText) 0 = .ok (c2St, cl)
      ∧ cl.confidence = (rawSims ratSqrt (cexEmbed cexText) c2Dv).getD
          (argmaxIdx (rawSims ratSqrt (cexEmbed cexText) c2Dv)) 0
      ∧ cl.confidence ≤ 1 :=
  c2_confidence_amended cexEmbed ratSqrt c2St c2St cexText 0 c2Dv
    (by decide) (by decide) (by decide) (by decide) (by decide) (by decide)

/-- C6 counterexample corpus: one good document `p1` and one
whitespace-extracting document `p2`, trained from an empty cache. -/
def c6CexSt : ClassifierState :=
  ⟨[("a", [⟨"p1", "f1", ExtractRes.ok "hello".toList⟩,
           ⟨"p2", "f2", ExtractRes.ok "   ".toList⟩])],
   [], HashFile.missing, ModelFile.absent, Option.none, []⟩

/-- Result of the first training run on `c6CexSt`. -/
def c6Out1 : TrainOut :=
  ⟨⟨[("a", [⟨"p1", "f1", ExtractRes.ok "hello".toList⟩,
            ⟨"p2", "f2", ExtractRes.ok "   ".toList⟩])],
    [("p1", EmbEntry.good [1, 0] "a")],
    HashFile.dict [("p1", "f1"), ("p2", "f2")],
    ModelFile.stored [[1, 0]] ["a"], some [[1, 0]], ["a"]⟩,
   [Event.extractCall "p1", Event.updatedEmbedding "p1", Event.extractCall "p2"]⟩

/-- Result of the second training run (same corpus, nothing changed). -/
def c6Out2 : TrainOut := ⟨c6Out1.state, [Event.extractCall "p2"]⟩

/-- C6 counterexample: with one whitespace-extracting document in the
corpus, the second identical training run still calls `extract_text` on it
(its fingerprint matches the snapshot, but it has no cached embedding
record), falsifying "computes no text extraction on the second run". -/
theorem c6_counterexample :
    train cexEmbed c6CexSt = .ok c6Out1
    ∧ train cexEmbed c6Out1.state = .ok c6Out2
    ∧ Event.extractCall "p2" ∈ c6Out2.events
    ∧ getA c6Out1.state.embeddings "p2" = Option.none :=
  ⟨by decide, by decide, by decide, by decide⟩

/-- Witness for C6 (amended): the two-document corpus above. -/
theorem c6_idempotent_amended_witness :
    ∃ o2, train cexEmbed c6Out1.state = .ok o2
      ∧ (∀ p, Event.updatedEmbedding p ∉ o2.events)
      ∧ (∃ hs, c6Out1.state.hashFile = HashFile.dict hs
           ∧ ∀ pd ∈ corpusDocs c6Out1.state.dataDir, getA hs pd.2.path = some pd.2.fp)
      ∧ (∀ p, Event.extractCall p ∈ o2.events →
           getA c6Out1.state.embeddings p = Option.none)
      ∧ (∀ pd ∈ corpusDocs c6Out1.state.dataDir, ∀ text,
           pd.2.extract = ExtractRes.ok text → pyStrip text ≠ [] →
           getA c6Out1.state.embeddings pd.2.path ≠ Option.none) :=
  c6_idempotent_amended cexEmbed c6CexSt c6Out1 (by decide) (by decide) (by decide)

/-- C10 witness corpus: a single document whose cached record exists, whose
fingerprint changed (snapshot holds "OLD"), and whose extraction now
raises. -/
def c10St : ClassifierState :=
  ⟨[("a", [⟨"p1", "f1", ExtractRes.raises "boom"⟩])],
   [("p1", EmbEntry.good [1, 0] "a")],
   HashFile.dict [("p1", "OLD")], ModelFile.absent, Option.none, []⟩

/-- Witness for C10: the changed-but-unextractable document keeps its cached
embedding, appears in the rebuilt model, gets its new fingerprint persisted,
and is skipped entirely on the next run. -/
theorem c10_stale_embedding_retained_witness :
    ∃ o1, train cexEmbed c10St = .ok o1
      ∧ getA o1.state.embeddings ("a", (⟨"p1", "f1", ExtractRes.raises "boom"⟩ : Doc)).2.path
          = some (EmbEntry.good [1, 0] "a")
      ∧ (∃ vecs labs, o1.state.modelFile = ModelFile.stored vecs labs
           ∧ ([1, 0], "a") ∈ vecs.zip labs)
      ∧ (∃ hs, o1.state.hashFile = HashFile.dict hs
           ∧ getA hs ("a", (⟨"p1", "f1", ExtractRes.raises "boom"⟩ : Doc)).2.path
               = some ("a", (⟨"p1", "f1", ExtractRes.raises "boom"⟩ : Doc)).2.fp)
      ∧ (∃ o2, train cexEmbed o1.state = .ok o2
           ∧ (∀ q, Event.updatedEmbedding q ∉ o2.events)
           ∧ Event.extractCall ("a", (⟨"p1", "f1", ExtractRes.raises "boom"⟩ : Doc)).2.path
               ∉ o2.events) :=
  c10_stale_embedding_retained cexEmbed c10St
    ("a", ⟨"p1", "f1", ExtractRes.raises "boom"⟩) [1, 0] "a" [("p1", "OLD")]
    (by decide) rfl (by decide) (by decide) (by decide)
    (fun t ht => ExtractRes.noConfusion ht)

end ConcreteEvaluation

end PdfClassify
